import Mathlib

/-!
Verification of the `code2md` tool (`code2md.py`): a shallow embedding of its
pure logic in Lean 4, together with theorems settling the specification's
claims. File contents, directory listings, user input and the clock are
passed in explicitly, so every Python function becomes a pure Lean function.
-/

namespace Code2md

/-! ## Python string primitives used by the source -/

/-- Characters treated as whitespace by Python's `str.strip()` (ASCII part). -/
def isPySpace (c : Char) : Bool :=
  c = ' ' ∨ c = '\t' ∨ c = '\n' ∨ c = '\r' ∨ c = '\x0b' ∨ c = '\x0c'

/-- Model of Python `str.strip()`: drop leading and trailing whitespace. -/
def pyStrip (l : List Char) : List Char :=
  ((l.dropWhile isPySpace).reverse.dropWhile isPySpace).reverse

/-- Python `str.strip()` lifted to `String`. -/
def pyStripS (s : String) : String :=
  (pyStrip s.toList).asString

/-- Model of Python `str.split('.')` (no maxsplit): split on every `'.'`;
the empty string splits to `[""]`. -/
def pySplitDot : List Char → List (List Char)
  | [] => [[]]
  | c :: rest =>
    if c = '.' then
      [] :: pySplitDot rest
    else
      match pySplitDot rest with
      | [] => [[c]]
      | s :: ss => (c :: s) :: ss

/-- Model of Python `str.replace(old, new)` for a one-character `old`:
every occurrence of `old` is replaced by `new`. -/
def pyReplaceChar (s : String) (old : Char) (new : String) : String :=
  String.join (s.toList.map (fun c => if c = old then new else String.singleton c))

/-- Model of Python `str.lower()` (ASCII): lowercase each character. -/
def pyLower (s : String) : String :=
  (s.toList.map Char.toLower).asString

/-- Model of Python `line.startswith('#')`: the first character is `'#'`. -/
def startsWithHash (s : String) : Bool :=
  s.toList.head? == some '#'

/-! ## Language Mapper (`get_language_identifier`, code2md.py lines 145-174) -/

/-- The fixed extension → language table from the source. -/
def language_map : List (String × String) :=
  [("py", "python"), ("js", "javascript"), ("html", "html"), ("css", "css"),
   ("java", "java"), ("c", "c"), ("cpp", "cpp"), ("md", "markdown"),
   ("txt", "text"), ("json", "json"), ("xml", "xml"), ("sql", "sql"),
   ("sh", "bash"), ("yaml", "yaml"), ("yml", "yaml")]

/-- Function `get_language_identifier(filename)`:
`extension = filename.split('.')[-1].lower()`, then look the extension up in
`language_map`, returning `''` when it is absent. -/
def get_language_identifier (filename : String) : String :=
  let extension := pyLower ((pySplitDot filename.toList).getLastD []).asString
  (language_map.lookup extension).getD ""

/-- The spec's notion of extension: the substring after the last `'.'` of the
filename; by convention the whole filename when it contains no `'.'`. -/
def lastSeg : List Char → List Char
  | [] => []
  | c :: r => if '.' ∈ r then lastSeg r else if c = '.' then r else c :: r

/-- The language tag as the claim describes it: empty for a filename that
contains no `'.'`, otherwise the table lookup on the lowercased substring
after the last `'.'`. -/
def claimedLanguage (filename : String) : String :=
  if '.' ∈ filename.toList then
    (language_map.lookup (pyLower (lastSeg filename.toList).asString)).getD ""
  else ""

/-! ## Pattern Loader (`parse_gitignore`, code2md.py lines 26-44)

The filesystem read is abstracted: `gitignoreLines` is `none` when no
`.gitignore` exists in the directory and `some lines` (the file's lines,
newline-stripped by Python's line iteration plus the subsequent `strip`)
when it does. -/

/-- Function `parse_gitignore`: strip each line; keep it when nonempty and not
starting with `'#'`, in file order; absent file yields `[]`. -/
def parse_gitignore (gitignoreLines : Option (List String)) : List String :=
  match gitignoreLines with
  | none => []
  | some lines =>
    lines.foldl
      (fun patterns line =>
        let l := pyStripS line
        if l ≠ "" ∧ ¬ startsWithHash l then patterns ++ [l] else patterns)
      []

/-! ## User confirmation (`get_user_confirmation`, code2md.py lines 106-123)

Standard input is modelled as a list of answer strings. The source loops
forever until a valid answer arrives; exhausting the stream (EOF) has no
normal return, modelled as `none`. A valid answer also returns the rest of
the stream, so the caller can keep consuming it. -/

/-- Function `get_user_confirmation`: read answers until one strips and lowercases to
`y`/`yes` (accept) or `n`/`no` (reject); anything else is re-prompted. -/
def get_user_confirmation : List String → Option (Bool × List String)
  | [] => none
  | r :: rest =>
    let response := pyStripS (pyLower r)
    if response = "y" ∨ response = "yes" then some (true, rest)
    else if response = "n" ∨ response = "no" then some (false, rest)
    else get_user_confirmation rest

/-- Normalisation applied to each raw answer by the source
(`input(...).lower().strip()`). -/
def normAnswer (r : String) : String := pyStripS (pyLower r)

/-- An answer string the confirmation loop accepts as decisive. -/
def isValidAnswer (s : String) : Bool :=
  s = "y" ∨ s = "yes" ∨ s = "n" ∨ s = "no"

/-! ## Table of contents (`generate_toc`, code2md.py lines 126-142) -/

/-- The link anchor the source computes:
`file.replace(' ', '-').replace('.', '')`. -/
def tocAnchor (file : String) : String :=
  pyReplaceChar (pyReplaceChar file ' ' "-") '.' ""

/-- One TOC line: `- [file](#anchor)\n`. -/
def tocLine (file : String) : String :=
  "- [" ++ file ++ "](#" ++ tocAnchor file ++ ")\n"

/-- Function `generate_toc`: header, one link line per file accumulated in order, and
a trailing blank line. -/
def generate_toc (files : List String) : String :=
  (files.foldl (fun toc file => toc ++ tocLine file) "# Table of Contents\n\n") ++ "\n"

/-- The anchor as the claim words it: the filename with spaces and periods
stripped (removed). -/
def claimedAnchor (file : String) : String :=
  (file.toList.filter (fun c => ¬ (c = ' ' ∨ c = '.'))).asString

/-- Function `generate_toc` as the claim describes it: same layout, but with the
claimed anchors. -/
def claimedToc (files : List String) : String :=
  (files.foldl
    (fun toc file => toc ++ "- [" ++ file ++ "](#" ++ claimedAnchor file ++ ")\n")
    "# Table of Contents\n\n") ++ "\n"

/-! ### Helper lemmas -/

theorem pySplitDot_ne_nil (l : List Char) : pySplitDot l ≠ [] := by
  cases l with
  | nil => simp [pySplitDot]
  | cons c rest =>
    simp only [pySplitDot]
    split
    · simp
    · cases h : pySplitDot rest <;> simp

theorem pySplitDot_cons_dot (rest : List Char) :
    pySplitDot ('.' :: rest) = [] :: pySplitDot rest := by
  simp [pySplitDot]

theorem pySplitDot_cons_ne (c : Char) (rest : List Char) (hc : ¬ c = '.') :
    pySplitDot (c :: rest) =
      match pySplitDot rest with
      | [] => [[c]]
      | s :: ss => (c :: s) :: ss := by
  simp [pySplitDot, hc]

theorem pySplitDot_no_dot (l : List Char) (h : '.' ∉ l) : pySplitDot l = [l] := by
  induction l with
  | nil => rfl
  | cons c rest ih =>
    simp only [List.mem_cons, not_or] at h
    have hc : ¬ c = '.' := fun hh => h.1 hh.symm
    rw [pySplitDot_cons_ne c rest hc, ih h.2]

theorem lastSeg_no_dot (l : List Char) (h : '.' ∉ l) : lastSeg l = l := by
  cases l with
  | nil => rfl
  | cons c rest =>
    simp only [List.mem_cons, not_or] at h
    have hc : ¬ c = '.' := fun hh => h.1 hh.symm
    simp only [lastSeg, if_neg h.2, if_neg hc]

theorem pySplitDot_length_of_dot (l : List Char) (h : '.' ∈ l) :
    2 ≤ (pySplitDot l).length := by
  induction l with
  | nil => cases h
  | cons c rest ih =>
    by_cases hc : c = '.'
    · subst hc
      rw [pySplitDot_cons_dot]
      cases hr : pySplitDot rest with
      | nil => exact absurd hr (pySplitDot_ne_nil rest)
      | cons s ss => simp
    · have hd : '.' ∈ rest := by
        rcases List.mem_cons.mp h with h1 | h1
        · exact absurd h1.symm hc
        · exact h1
      rw [pySplitDot_cons_ne c rest hc]
      cases hr : pySplitDot rest with
      | nil => exact absurd hr (pySplitDot_ne_nil rest)
      | cons s ss =>
        have := ih hd
        rw [hr] at this
        simpa using this

theorem pySplitDot_getLastD (l : List Char) :
    (pySplitDot l).getLastD [] = lastSeg l := by
  induction l with
  | nil => rfl
  | cons c rest ih =>
    by_cases hc : c = '.'
    · subst hc
      rw [pySplitDot_cons_dot]
      simp only [lastSeg, List.getLastD_cons]
      by_cases hd : '.' ∈ rest
      · simp only [if_pos hd]
        exact ih
      · simp only [if_neg hd, if_pos rfl]
        rw [pySplitDot_no_dot rest hd]
        rfl
    · rw [pySplitDot_cons_ne c rest hc]
      simp only [lastSeg]
      by_cases hd : '.' ∈ rest
      · simp only [if_pos hd]
        cases hr : pySplitDot rest with
        | nil => exact absurd hr (pySplitDot_ne_nil rest)
        | cons s ss =>
          rw [hr] at ih
          cases ss with
          | nil =>
            have := pySplitDot_length_of_dot rest hd
            rw [hr] at this
            simp at this
          | cons t ts =>
            simp only [List.getLastD_cons] at ih ⊢
            exact ih
      · simp only [if_neg hd, if_neg hc]
        rw [pySplitDot_no_dot rest hd]
        rfl

/-- Concatenation of the strings produced for each list element, in order. -/
def concatMap {α : Type} (g : α → String) : List α → String
  | [] => ""
  | x :: xs => g x ++ concatMap g xs

theorem foldl_append_concatMap {α : Type} (g : α → String) (l : List α) (init : String) :
    l.foldl (fun acc x => acc ++ g x) init = init ++ concatMap g l := by
  induction l generalizing init with
  | nil => simp [concatMap]
  | cons x xs ih =>
    simp only [List.foldl_cons, concatMap, ih, String.append_assoc]

/-! ## Claim theorems about the pure string components -/

/-- C1 (counterexample): the claim says a filename with no extension yields
the empty string, but `get_language_identifier "c"` returns `"c"`:
`"c".split('.')[-1]` is the whole filename, which is a key of the table. -/
theorem language_identifier_no_extension_counterexample :
    get_language_identifier "c" ≠ claimedLanguage "c" := by decide

/-- C1 (amended): `get_language_identifier` looks up, in the fixed table, the
lowercased substring after the last `'.'` of the filename — taking the whole
filename when it contains no `'.'` — and returns `''` when the key is absent. -/
theorem language_identifier_lastSeg (filename : String) :
    get_language_identifier filename =
      (language_map.lookup (pyLower (lastSeg filename.toList).asString)).getD "" := by
  unfold get_language_identifier
  rw [pySplitDot_getLastD]

/-- C2 (counterexample): the claim says the anchor is the filename with
spaces and periods stripped, but on `"a b.txt"` the source produces anchor
`a-btxt` (space replaced by a hyphen), not `abtxt`. -/
theorem generate_toc_counterexample :
    generate_toc ["a b.txt"] ≠ claimedToc ["a b.txt"] := by decide

/-- C2 (amended): `generate_toc` emits the header, then one Markdown link
line per file in list order whose anchor is the filename with spaces
replaced by hyphens and periods removed, then a blank line. -/
theorem generate_toc_lines (files : List String) :
    generate_toc files = "# Table of Contents\n\n" ++ concatMap tocLine files ++ "\n" := by
  unfold generate_toc
  rw [foldl_append_concatMap]

/-- C6: `parse_gitignore` returns exactly the whitespace-stripped lines that
are nonempty and do not begin with `'#'`, in file order; an absent ignore
file yields the empty list. -/
theorem parse_gitignore_spec :
    parse_gitignore none = [] ∧
    ∀ lines, parse_gitignore (some lines) =
      (lines.map pyStripS).filter (fun l => !(l == "") && !(startsWithHash l)) := by
  refine ⟨rfl, fun lines => ?_⟩
  show lines.foldl _ [] = _
  have key : ∀ (acc : List String), lines.foldl
      (fun patterns line =>
        let l := pyStripS line
        if l ≠ "" ∧ ¬ startsWithHash l then patterns ++ [l] else patterns) acc =
      acc ++ (lines.map pyStripS).filter (fun l => !(l == "") && !(startsWithHash l)) := by
    induction lines with
    | nil => simp
    | cons x xs ih =>
      intro acc
      simp only [List.foldl_cons, List.map_cons, List.filter_cons]
      by_cases h : pyStripS x ≠ "" ∧ ¬ startsWithHash (pyStripS x)
      · rw [if_pos h, ih]
        have hb : (!(pyStripS x == "") && !(startsWithHash (pyStripS x))) = true := by
          simp [h.1, h.2]
        simp [hb]
      · rw [if_neg h, ih]
        have hb : (!(pyStripS x == "") && !(startsWithHash (pyStripS x))) = false := by
          rcases not_and_or.mp h with h1 | h1
          · simp only [ne_eq, not_not] at h1
            simp [h1]
          · simp only [not_not] at h1
            simp [h1]
        simp [hb]
  simpa using key []

/-- C7: the confirmation loop is decided by the first answer in the stream
that normalises (lowercase, then strip) to `y`, `yes`, `n` or `no`: it
returns `true` for `y`/`yes` and `false` for `n`/`no`, rejecting every
earlier answer; it never returns if no valid answer arrives. -/
theorem get_user_confirmation_spec (inputs : List String) :
    (get_user_confirmation inputs).map Prod.fst =
      ((inputs.map normAnswer).find? isValidAnswer).map
        (fun s => s == "y" || s == "yes") := by
  induction inputs with
  | nil => rfl
  | cons r rest ih =>
    simp only [get_user_confirmation, List.map_cons, List.find?]
    by_cases h1 : pyStripS (pyLower r) = "y" ∨ pyStripS (pyLower r) = "yes"
    · have hv : isValidAnswer (normAnswer r) = true := by
        rcases h1 with h | h <;> simp [isValidAnswer, normAnswer, h]
      rw [if_pos h1, hv]
      rcases h1 with h | h <;> simp [normAnswer, h]
    · by_cases h2 : pyStripS (pyLower r) = "n" ∨ pyStripS (pyLower r) = "no"
      · have hv : isValidAnswer (normAnswer r) = true := by
          rcases h2 with h | h <;> simp [isValidAnswer, normAnswer, h]
        rw [if_neg h1, if_pos h2, hv]
        rcases h2 with h | h <;>
          simp_all [normAnswer, h]
      · have hv : isValidAnswer (normAnswer r) = false := by
          push_neg at h1 h2
          simp [isValidAnswer, normAnswer, h1.1, h1.2, h2.1, h2.2]
        rw [if_neg h1, if_neg h2, hv]
        exact ih

/-! ## Shell-glob matching (`fnmatch.fnmatch`)

Model of cpython's `fnmatch` on POSIX (where `normcase` is the identity):
`*` matches any run of characters, `?` any single character, `[...]` a
character class with ranges and `!` negation; a `[` with no closing `]` is
literal; every other character matches itself; the whole name must match. -/

/-- Membership of a character in a class body: literal characters, `x-y`
ranges, and a literal `-` at either end. -/
def classMember : List Char → Char → Bool
  | [], _ => false
  | [a], c => a == c
  | a :: '-' :: [], c => a == c || c == '-'
  | a :: '-' :: b :: rest, c => (decide (a ≤ c) && decide (c ≤ b)) || classMember rest c
  | a :: rest, c => a == c || classMember rest c

/-- Scan for the closing `]` of a character class: returns the class body
and the remaining pattern, or `none` when the class is unterminated. -/
def scanClose : List Char → Option (List Char × List Char)
  | [] => none
  | c :: r =>
    if c = ']' then some ([], r)
    else (scanClose r).map (fun pr => (c :: pr.1, pr.2))

/-- Parse a character class after an opening `[`: an optional leading `!`
negates, a `]` directly after that is a literal member; `none` when the
class never closes (the `[` is then a literal). -/
def parseClass (p : List Char) : Option (Bool × List Char × List Char) :=
  match p with
  | '!' :: ']' :: r => (scanClose r).map (fun pr => (true, ']' :: pr.1, pr.2))
  | '!' :: r => (scanClose r).map (fun pr => (true, pr.1, pr.2))
  | ']' :: r => (scanClose r).map (fun pr => (false, ']' :: pr.1, pr.2))
  | r => (scanClose r).map (fun pr => (false, pr.1, pr.2))

/-- The glob matcher on character lists: pattern on the left, name on the
right; the entire name must be consumed. The `fuel` argument only makes the
recursion structural: every recursive call shrinks pattern-length plus
name-length by at least one, so the initial budget `p.length + n.length`
supplied by `fnmatchL` is never exhausted and the zero-fuel arm is
unreachable. -/
def fnmatchGo : Nat → List Char → List Char → Bool
  | _, [], [] => true
  | _, [], _ :: _ => false
  | 0, _ :: _, _ => false
  | fuel + 1, '*' :: p, n =>
    fnmatchGo fuel p n ||
      (match n with
       | [] => false
       | _ :: n' => fnmatchGo fuel ('*' :: p) n')
  | _ + 1, '?' :: _, [] => false
  | fuel + 1, '?' :: p, _ :: n' => fnmatchGo fuel p n'
  | fuel + 1, '[' :: p, n =>
    (match parseClass p with
     | some (neg, body, rest) =>
       (match n with
        | [] => false
        | c :: n' =>
          (if neg then !(classMember body c) else classMember body c) && fnmatchGo fuel rest n')
     | none =>
       (match n with
        | '[' :: n' => fnmatchGo fuel p n'
        | _ => false))
  | _ + 1, _ :: _, [] => false
  | fuel + 1, c :: p, d :: n' => c == d && fnmatchGo fuel p n'

/-- Glob matching on character lists with a sufficient fuel budget. -/
def fnmatchL (p n : List Char) : Bool :=
  fnmatchGo (p.length + n.length) p n

/-- Library call `fnmatch.fnmatch(name, pattern)` on POSIX. -/
def fnmatch (name pattern : String) : Bool :=
  fnmatchL pattern.toList name.toList

/-! ## Filesystem model and File Collector (`collect_files`, code2md.py 47-87)

A path is its list of components; `os.path.join` appends a component, and
joining with `'/'` gives the path string the source manipulates. The scanned
directory is a finite tree of file names and named subtrees. -/

/-- A filesystem path, as the components `os.path.join` assembled. -/
abbrev Path := List String

/-- The string form of a path (components joined by `'/'`, as `os.path.join`
produces on POSIX). -/
def pathStr : Path → String
  | [] => ""
  | [x] => x
  | x :: xs => x ++ "/" ++ pathStr xs

/-- Model of `os.path.basename` on a collector path: its last component (collector
paths always end with the file's name). -/
def basenameC (p : Path) : String := p.getLastD ""

/-- Model of `os.path.relpath(file_path, directory)` for the collector's paths, which
are always `directory ++ rel`: strip the directory prefix. -/
def relpathComps (file_path directory : Path) : Path :=
  file_path.drop directory.length

/-- A directory: regular-file names and named subdirectories. -/
inductive FSTree where
  | node : (files : List String) → (subdirs : List (String × FSTree)) → FSTree

/-- The regular-file names of a directory node. -/
def FSTree.filesOf : FSTree → List String
  | .node files _ => files

/-- The named subdirectories of a directory node. -/
def FSTree.subdirsOf : FSTree → List (String × FSTree)
  | .node _ subdirs => subdirs

/-- Predicate `is_ignored` (code2md.py lines 59-75): with no patterns (absent or empty
list — both falsy in Python) nothing is ignored; otherwise ignore when the
relative path or its basename `fnmatch`es some pattern. -/
def is_ignored (directory : Path) (ignore_patterns : Option (List String))
    (file_path : Path) : Bool :=
  match ignore_patterns with
  | none => false
  | some [] => false
  | some ps =>
    let rel_path := relpathComps file_path directory
    ps.any (fun pattern =>
      fnmatch (pathStr rel_path) pattern || fnmatch (basenameC rel_path) pattern)

mutual

/-- Model of `os.walk` top-down: the node's own files first, then each subtree. -/
def walkFiles (cur : Path) : FSTree → List Path
  | .node files subdirs =>
    files.map (fun f => cur ++ [f]) ++ walkFilesList cur subdirs

/-- Walk a list of named subtrees in order. -/
def walkFilesList (cur : Path) : List (String × FSTree) → List Path
  | [] => []
  | (name, t) :: rest => walkFiles (cur ++ [name]) t ++ walkFilesList cur rest

end

mutual

/-- The recursive branch of `collect_files`: walk the tree, yielding each
file path that is not ignored. The exclusion test runs on file paths only;
directories are never tested. -/
def collectWalk (rootDir : Path) (pats : Option (List String)) (cur : Path) :
    FSTree → List Path
  | .node files subdirs =>
    files.filterMap (fun f =>
      let file_path := cur ++ [f]
      if is_ignored rootDir pats file_path then none else some file_path)
    ++ collectWalkList rootDir pats cur subdirs

/-- Walker `collectWalk` over a list of named subtrees. -/
def collectWalkList (rootDir : Path) (pats : Option (List String)) (cur : Path) :
    List (String × FSTree) → List Path
  | [] => []
  | (name, t) :: rest =>
    collectWalk rootDir pats (cur ++ [name]) t ++ collectWalkList rootDir pats cur rest

end

/-- Function `collect_files(directory, recursive, ignore_patterns)`: recursive mode
walks the whole subtree; non-recursive mode takes `os.listdir` (files and
subdirectory names), keeps the regular files, and applies the same
exclusion test. -/
def collect_files (directory : Path) (recursive : Bool)
    (ignore_patterns : Option (List String)) (t : FSTree) : List Path :=
  if recursive then
    collectWalk directory ignore_patterns directory t
  else
    (t.filesOf ++ t.subdirsOf.map Prod.fst).filterMap (fun name =>
      let file_path := directory ++ [name]
      if t.filesOf.contains name && !(is_ignored directory ignore_patterns file_path)
      then some file_path else none)

/-- The candidate files before any ignore filtering: every file in the
subtree (recursive mode), or the direct regular-file children
(non-recursive mode). -/
def rawCandidates (directory : Path) (recursive : Bool) (t : FSTree) : List Path :=
  if recursive then
    walkFiles directory t
  else
    (t.filesOf ++ t.subdirsOf.map Prod.fst).filterMap (fun name =>
      if t.filesOf.contains name then some (directory ++ [name]) else none)

/-! ### Collector lemmas -/

theorem filterMap_ignore_filter (q : Path → Bool) (g : String → Path) (l : List String) :
    l.filterMap (fun f => if q (g f) then none else some (g f)) =
      (l.map g).filter (fun fp => !(q fp)) := by
  induction l with
  | nil => rfl
  | cons a l ih => by_cases h : q (g a) <;> simp [h, ih]

theorem filterMap_contains_filter (F : List String) (q : Path → Bool) (g : String → Path)
    (l : List String) :
    l.filterMap (fun name =>
        if F.contains name && !(q (g name)) then some (g name) else none) =
      (l.filterMap (fun name =>
        if F.contains name then some (g name) else none)).filter (fun fp => !(q fp)) := by
  induction l with
  | nil => rfl
  | cons a l ih =>
    simp at ih
    simp only [List.filterMap_cons]
    by_cases hc : a ∈ F
    · by_cases hq : q (g a) = true
      · simp [hc, hq, ih]
      · simp [hc, hq, ih]
    · simp [hc, ih]

mutual

theorem collectWalk_eq_filter (rootDir : Path) (pats : Option (List String)) (cur : Path)
    (t : FSTree) :
    collectWalk rootDir pats cur t =
      (walkFiles cur t).filter (fun fp => !(is_ignored rootDir pats fp)) := by
  cases t with
  | node files subdirs =>
    rw [collectWalk, walkFiles, List.filter_append,
      collectWalkList_eq_filter rootDir pats cur subdirs,
      filterMap_ignore_filter (is_ignored rootDir pats) (fun f => cur ++ [f]) files]

theorem collectWalkList_eq_filter (rootDir : Path) (pats : Option (List String)) (cur : Path)
    (l : List (String × FSTree)) :
    collectWalkList rootDir pats cur l =
      (walkFilesList cur l).filter (fun fp => !(is_ignored rootDir pats fp)) := by
  cases l with
  | nil => rfl
  | cons p rest =>
    rw [collectWalkList, walkFilesList, List.filter_append,
      collectWalk_eq_filter rootDir pats (cur ++ [p.1]) p.2,
      collectWalkList_eq_filter rootDir pats cur rest]

end

theorem collect_files_eq_filter (directory : Path) (recursive : Bool)
    (pats : Option (List String)) (t : FSTree) :
    collect_files directory recursive pats t =
      (rawCandidates directory recursive t).filter
        (fun fp => !(is_ignored directory pats fp)) := by
  cases recursive with
  | true =>
    simp only [collect_files, rawCandidates, if_pos]
    exact collectWalk_eq_filter directory pats directory t
  | false =>
    simp only [collect_files, rawCandidates, Bool.false_eq_true, if_false]
    exact filterMap_contains_filter t.filesOf (is_ignored directory pats)
      (fun name => directory ++ [name]) (t.filesOf ++ t.subdirsOf.map Prod.fst)

theorem is_ignored_iff (directory : Path) (pats : Option (List String)) (f : Path) :
    is_ignored directory pats f = true ↔
      ∃ pattern ∈ pats.getD [],
        fnmatch (pathStr (relpathComps f directory)) pattern = true ∨
        fnmatch (basenameC (relpathComps f directory)) pattern = true := by
  cases pats with
  | none => simp [is_ignored]
  | some ps =>
    cases ps with
    | nil => simp [is_ignored]
    | cons p rest =>
      simp [is_ignored, List.any_eq_true]

theorem walkFilesList_mem (cur : Path) (l : List (String × FSTree)) (name : String)
    (sub : FSTree) (hmem : (name, sub) ∈ l) (f : Path)
    (hf : f ∈ walkFiles (cur ++ [name]) sub) : f ∈ walkFilesList cur l := by
  induction l with
  | nil => cases hmem
  | cons p rest ih =>
    rw [walkFilesList]
    rcases List.mem_cons.mp hmem with h | h
    · subst h
      exact List.mem_append.mpr (Or.inl hf)
    · exact List.mem_append.mpr (Or.inr (ih h))

/-! ### Claim theorems about the File Collector -/

/-- C5: a candidate file survives `collect_files` exactly when neither its
path relative to the scan root nor its basename matches any supplied
pattern under shell-glob semantics; with an absent or empty pattern list no
file is excluded. -/
theorem collect_files_spec (directory : Path) (recursive : Bool)
    (ignore_patterns : Option (List String)) (t : FSTree) (f : Path) :
    f ∈ collect_files directory recursive ignore_patterns t ↔
      f ∈ rawCandidates directory recursive t ∧
        ¬ ∃ pattern ∈ ignore_patterns.getD [],
            fnmatch (pathStr (relpathComps f directory)) pattern = true ∨
            fnmatch (basenameC (relpathComps f directory)) pattern = true := by
  rw [collect_files_eq_filter, List.mem_filter]
  simp only [Bool.not_eq_eq_eq_not, Bool.not_true, ← Bool.not_eq_true, is_ignored_iff]

/-- C10: in recursive mode an ignore pattern equal to a subdirectory's bare
name prunes nothing during the walk: a file inside that subdirectory is
collected if and only if its own relative path or basename fails to match
every pattern. -/
theorem collect_files_subdir_pattern (directory : Path) (pats : List String)
    (t : FSTree) (name : String) (sub : FSTree) (f : Path)
    (hmem : (name, sub) ∈ t.subdirsOf) (_hpat : name ∈ pats)
    (hf : f ∈ walkFiles (directory ++ [name]) sub) :
    f ∈ collect_files directory true (some pats) t ↔
      ¬ ∃ pattern ∈ pats,
          fnmatch (pathStr (relpathComps f directory)) pattern = true ∨
          fnmatch (basenameC (relpathComps f directory)) pattern = true := by
  have hcand : f ∈ rawCandidates directory true t := by
    cases t with
    | node files subdirs =>
      simp only [FSTree.subdirsOf] at hmem
      simp only [rawCandidates, if_pos, walkFiles, List.mem_append]
      exact Or.inr (walkFilesList_mem directory subdirs name sub hmem f hf)
  rw [collect_files_eq_filter, List.mem_filter]
  simp only [hcand, true_and, Bool.not_eq_eq_eq_not, Bool.not_true, ← Bool.not_eq_true,
    is_ignored_iff]
  rfl

/-- C10 witness: a tree with subdirectory `build` holding `main.py`, ignore
pattern `build`: the theorem applies, and the file is indeed collected. -/
theorem collect_files_subdir_pattern_witness :
    ((["." , "build", "main.py"] : Path) ∈
        collect_files ["."] true (some ["build"])
          (FSTree.node [] [("build", FSTree.node ["main.py"] [])]) ↔
      ¬ ∃ pattern ∈ ["build"],
          fnmatch (pathStr (relpathComps ["." , "build", "main.py"] ["."])) pattern = true ∨
          fnmatch (basenameC (relpathComps ["." , "build", "main.py"] ["."])) pattern = true) ∧
    (["." , "build", "main.py"] : Path) ∈
      collect_files ["."] true (some ["build"])
        (FSTree.node [] [("build", FSTree.node ["main.py"] [])]) :=
  ⟨collect_files_subdir_pattern ["."] ["build"]
      (FSTree.node [] [("build", FSTree.node ["main.py"] [])])
      "build" (FSTree.node ["main.py"] []) ["." , "build", "main.py"]
      (by simp [FSTree.subdirsOf]) (by decide) (by decide),
    by decide⟩

/-! ## Document Assembler (`combine_files_to_markdown`, code2md.py 183-230)

The environment is explicit: the scanned tree, the `.gitignore` lines (if
the file exists), a read function giving each path's content (`none` models
an `IOError`, which `read_file_content` turns into `FileProcessingError`),
the process's `os.path.abspath`, the stdin answer stream, and the formatted
`datetime.now()` string. The bytes written to the output file and the
summary numbers logged at the end are returned in a result record. -/

/-- Value of `os.path.basename(__file__)`: the running script's own file name. -/
def script_name : String := "code2md.py"

/-- Function `generate_metadata` (code2md.py lines 177-180) with the formatted
`datetime.now()` passed in. -/
def generate_metadata (now : String) : String :=
  "Generated on: " ++ now ++ "\n"

/-- One per-file section of the output document. -/
structure FileSection where
  path : String
  lang : String
  content : String
deriving DecidableEq

/-- The bytes the source writes for one file section: heading, fence opened
with the language tag, raw content, fence closed, blank line. -/
def renderSection (s : FileSection) : String :=
  "### " ++ s.path ++ "\n" ++ "```" ++ s.lang ++ "\n" ++ s.content ++ "\n```\n\n"

/-- The selection loop (code2md.py lines 203-206): `include_all` accepts
every file without touching stdin; otherwise each file consumes
confirmations from the stream. `none` models the stream running dry
(`input()` raising at EOF, which aborts the run). -/
def selectFiles (include_all : Bool) :
    List Path → List String → Option (List Path × List String)
  | [], stdin => some ([], stdin)
  | f :: fs, stdin =>
    if include_all then
      match selectFiles include_all fs stdin with
      | none => none
      | some (sel, rest) => some (f :: sel, rest)
    else
      match get_user_confirmation stdin with
      | none => none
      | some (b, stdin') =>
        match selectFiles include_all fs stdin' with
        | none => none
        | some (sel, rest) => some ((if b then [f] else []) ++ sel, rest)

/-- The candidate list handed to selection (code2md.py lines 198-201):
collect files, then drop any whose basename is the script's own name or
whose absolute path is the output file's absolute path. -/
def candidateFiles (t : FSTree) (gitignoreLines : Option (List String))
    (abspath : String → String) (output_file : String) (directory : Path)
    (recursive : Bool) (ignore_gitignore : Bool) : List Path :=
  let ignore_patterns :=
    if ignore_gitignore then none else some (parse_gitignore gitignoreLines)
  (collect_files directory recursive ignore_patterns t).filter (fun f =>
    basenameC f != script_name && abspath (pathStr f) != abspath output_file)

/-- Everything `combine_files_to_markdown` produces: the candidate and
selected lists, the three parts written to the output file in order, the
paths logged as skipped, and the two numbers in the final summary log
(`Successfully combined {len(files_to_include)} out of {len(files)}`). -/
structure RunResult where
  candidates : List Path
  selected : List Path
  metadataBlock : String
  toc : String
  sections : List FileSection
  skipped : List String
  reportedCombined : Nat
  reportedConsidered : Nat
deriving DecidableEq

/-- The full byte content of the output file. -/
def document (r : RunResult) : String :=
  r.metadataBlock ++ r.toc ++ concatMap renderSection r.sections

/-- Function `combine_files_to_markdown`: build the ignore list (unless disabled),
collect candidates, drop self and the output path, run selection, then
write metadata, table of contents, and one fenced section per selected file
whose content can be read; a file whose read fails is logged and skipped. -/
def combine_files_to_markdown (t : FSTree) (gitignoreLines : Option (List String))
    (contents : String → Option String) (abspath : String → String)
    (output_file : String) (include_all : Bool) (directory : Path)
    (recursive : Bool) (ignore_gitignore : Bool) (stdin : List String)
    (now : String) : Option RunResult :=
  let files := candidateFiles t gitignoreLines abspath output_file directory
    recursive ignore_gitignore
  match selectFiles include_all files stdin with
  | none => none
  | some (files_to_include, _) =>
    some {
      candidates := files
      selected := files_to_include
      metadataBlock :=
        "# File Combination Metadata\n" ++ "```\n" ++ generate_metadata now ++ "```\n\n"
      toc := generate_toc (files_to_include.map pathStr)
      sections := files_to_include.filterMap (fun f =>
        match contents (pathStr f) with
        | some c => some ⟨pathStr f, get_language_identifier (pathStr f), c⟩
        | none => none)
      skipped := files_to_include.filterMap (fun f =>
        match contents (pathStr f) with
        | some _ => none
        | none => some (pathStr f))
      reportedCombined := files_to_include.length
      reportedConsidered := files.length }

/-! ### Assembler lemmas -/

theorem selectFiles_all (fs : List Path) (stdin : List String) :
    selectFiles true fs stdin = some (fs, stdin) := by
  induction fs with
  | nil => rfl
  | cons f fs ih => simp [selectFiles, ih]

theorem concatMap_append {α : Type} (g : α → String) (l1 l2 : List α) :
    concatMap g (l1 ++ l2) = concatMap g l1 ++ concatMap g l2 := by
  induction l1 with
  | nil => simp [concatMap]
  | cons x xs ih => simp [concatMap, ih, String.append_assoc]

/-- No written section belongs to a path whose read fails. -/
theorem sections_path_ne (sel : List Path) (contents : String → Option String)
    (f : Path) (hread : contents (pathStr f) = none) :
    ∀ s ∈ sel.filterMap (fun g =>
        match contents (pathStr g) with
        | some c => some (⟨pathStr g, get_language_identifier (pathStr g), c⟩ : FileSection)
        | none => none),
      s.path ≠ pathStr f := by
  intro s hs
  obtain ⟨g, hg, heq⟩ := List.mem_filterMap.mp hs
  cases hc : contents (pathStr g) with
  | none => rw [hc] at heq; cases heq
  | some c =>
    rw [hc] at heq
    injection heq with heq
    subst heq
    intro hpath
    simp only at hpath
    rw [hpath] at hc
    rw [hread] at hc
    cases hc

/-! ### Claim theorems about the Document Assembler -/

/-- C4: every file in the candidate list handed to selection has a basename
different from the script's own file name and an absolute path different
from the output file's, so the list contains neither the output file nor
the running script, regardless of the ignore patterns. -/
theorem candidates_exclude_self_and_output (t : FSTree)
    (gitignoreLines : Option (List String)) (abspath : String → String)
    (output_file : String) (directory : Path) (recursive : Bool)
    (ignore_gitignore : Bool) (f : Path)
    (hf : f ∈ candidateFiles t gitignoreLines abspath output_file directory
      recursive ignore_gitignore) :
    basenameC f ≠ script_name ∧ abspath (pathStr f) ≠ abspath output_file := by
  unfold candidateFiles at hf
  have h := (List.mem_filter.mp hf).2
  simp only [Bool.and_eq_true, bne_iff_ne, ne_eq] at h
  exact h

/-- C4 witness: a directory with one file `a.py` and no ignore file; the
candidate list contains `./a.py` and the theorem applies to it. -/
theorem candidates_exclude_self_and_output_witness :
    basenameC ["." , "a.py"] ≠ script_name ∧
      pathStr ["." , "a.py"] ≠ "out.md" :=
  candidates_exclude_self_and_output (FSTree.node ["a.py"] []) none (fun s => s)
    "out.md" ["."] false false ["." , "a.py"] (by decide)

/-- C8: in batch mode, two runs over identical inputs — any stdin streams
and any timestamps — produce byte-identical table-of-contents and per-file
section bytes; only the metadata block can differ. -/
theorem batch_mode_deterministic (t : FSTree) (gitignoreLines : Option (List String))
    (contents : String → Option String) (abspath : String → String)
    (output_file : String) (directory : Path) (recursive : Bool)
    (ignore_gitignore : Bool) (stdin1 stdin2 : List String) (now1 now2 : String) :
    (combine_files_to_markdown t gitignoreLines contents abspath output_file true
        directory recursive ignore_gitignore stdin1 now1).map
      (fun r => (r.toc, concatMap renderSection r.sections)) =
    (combine_files_to_markdown t gitignoreLines contents abspath output_file true
        directory recursive ignore_gitignore stdin2 now2).map
      (fun r => (r.toc, concatMap renderSection r.sections)) := by
  simp [combine_files_to_markdown, selectFiles_all]

/-- C3 (counterexample): one candidate file, selected in batch mode, whose
read fails: the run yields a summary of `1 out of 1` even though zero
sections were combined — the reported first number is the selected count,
not the count of files actually combined. -/
theorem summary_counts_counterexample :
    (combine_files_to_markdown (FSTree.node ["bad.py"] []) none (fun _ => none)
        (fun s => s) "out.md" true ["."] false false [] "2026-01-01 00:00:00").map
      (fun r => (r.reportedCombined, r.reportedConsidered, r.sections.length)) =
      some (1, 1, 0) := by decide

/-- C3 (amended): when a selected file's content cannot be read, the failure
is logged (the path joins the skip list), no section is written for it, the
run still completes, and the final summary reports the number of selected
files out of the number considered — a count that still includes the
skipped file rather than the number actually combined. -/
theorem read_failure_skips_and_counts (t : FSTree) (g : Option (List String))
    (contents : String → Option String) (abspath : String → String)
    (output_file : String) (include_all : Bool) (directory : Path)
    (recursive : Bool) (ig : Bool) (stdin : List String) (now : String)
    (r : RunResult)
    (hr : combine_files_to_markdown t g contents abspath output_file include_all
      directory recursive ig stdin now = some r)
    (f : Path) (hf : f ∈ r.selected) (hread : contents (pathStr f) = none) :
    pathStr f ∈ r.skipped ∧ (∀ s ∈ r.sections, s.path ≠ pathStr f) ∧
      r.reportedCombined = r.selected.length ∧
      r.reportedConsidered = r.candidates.length := by
  simp only [combine_files_to_markdown] at hr
  split at hr
  · cases hr
  · cases hr
    refine ⟨?_, sections_path_ne _ contents f hread, rfl, rfl⟩
    exact List.mem_filterMap.mpr ⟨f, hf, by rw [hread]⟩

/-- C3 witness: the concrete unreadable-file run of the counterexample,
with the theorem applied to its result. -/
theorem read_failure_skips_and_counts_witness :
    pathStr ["." , "bad.py"] ∈ ["./bad.py"] ∧
    (∀ s ∈ ([] : List FileSection), s.path ≠ pathStr ["." , "bad.py"]) ∧
    (1 : Nat) = 1 ∧ (1 : Nat) = 1 :=
  read_failure_skips_and_counts (FSTree.node ["bad.py"] []) none (fun _ => none)
    (fun s => s) "out.md" true ["."] false false [] "2026-01-01 00:00:00"
    ⟨[["." , "bad.py"]], [["." , "bad.py"]],
      "# File Combination Metadata\n```\nGenerated on: 2026-01-01 00:00:00\n```\n\n",
      "# Table of Contents\n\n- [./bad.py](#/badpy)\n\n", [], ["./bad.py"], 1, 1⟩
    (by decide) ["." , "bad.py"] (by decide) rfl

/-- C9: a selected file whose read fails still has its entry in the written
table of contents (the TOC is generated from the selection before any read),
while no fenced section of the document belongs to it. -/
theorem toc_lists_unreadable_file (t : FSTree) (g : Option (List String))
    (contents : String → Option String) (abspath : String → String)
    (output_file : String) (include_all : Bool) (directory : Path)
    (recursive : Bool) (ig : Bool) (stdin : List String) (now : String)
    (r : RunResult)
    (hr : combine_files_to_markdown t g contents abspath output_file include_all
      directory recursive ig stdin now = some r)
    (f : Path) (hf : f ∈ r.selected) (hread : contents (pathStr f) = none) :
    (∃ pre post, document r = pre ++ tocLine (pathStr f) ++ post) ∧
      ∀ s ∈ r.sections, s.path ≠ pathStr f := by
  simp only [combine_files_to_markdown] at hr
  split at hr
  · cases hr
  · rename_i sel rest heq
    cases hr
    dsimp only at hf ⊢
    refine ⟨?_, sections_path_ne sel contents f hread⟩
    have hmem : pathStr f ∈ List.map pathStr sel := List.mem_map_of_mem pathStr hf
    obtain ⟨l1, l2, hsplit⟩ := List.append_of_mem hmem
    refine ⟨"# File Combination Metadata\n" ++ "```\n" ++ generate_metadata now ++ "```\n\n"
        ++ ("# Table of Contents\n\n" ++ concatMap tocLine l1),
      concatMap tocLine l2 ++ "\n" ++ concatMap renderSection (sel.filterMap (fun g =>
        match contents (pathStr g) with
        | some c => some (⟨pathStr g, get_language_identifier (pathStr g), c⟩ : FileSection)
        | none => none)), ?_⟩
    simp only [document, generate_toc, foldl_append_concatMap, hsplit, concatMap_append]
    simp only [concatMap, String.append_assoc]

/-- C9 witness: the unreadable-file run: the TOC contains the entry for
`./bad.py` and the section list is empty. -/
theorem toc_lists_unreadable_file_witness :
    (∃ pre post,
      document ⟨[["." , "bad.py"]], [["." , "bad.py"]],
        "# File Combination Metadata\n```\nGenerated on: 2026-01-01 00:00:00\n```\n\n",
        "# Table of Contents\n\n- [./bad.py](#/badpy)\n\n", [], ["./bad.py"], 1, 1⟩ =
        pre ++ tocLine (pathStr ["." , "bad.py"]) ++ post) ∧
    ∀ s ∈ ([] : List FileSection), s.path ≠ pathStr ["." , "bad.py"] :=
  toc_lists_unreadable_file (FSTree.node ["bad.py"] []) none (fun _ => none)
    (fun s => s) "out.md" true ["."] false false [] "2026-01-01 00:00:00"
    ⟨[["." , "bad.py"]], [["." , "bad.py"]],
      "# File Combination Metadata\n```\nGenerated on: 2026-01-01 00:00:00\n```\n\n",
      "# Table of Contents\n\n- [./bad.py](#/badpy)\n\n", [], ["./bad.py"], 1, 1⟩
    (by decide) ["." , "bad.py"] (by decide) rfl

end Code2md

